import Mathlib

/-
Verification of the AI diagnostic request orchestrator from
src/Markus Code/src/components/CodeAnalyzer.tsx (the debugging flow:
model catalog, prompt builder, provider adapters, JSON extractor,
result validator, dispatch controller).

JavaScript runtime values produced by JSON.parse are modelled by the
inductive type Json below.  Modelling restrictions: JSON numbers are
modelled as integers (the source never manipulates numeric fields, and
no claim depends on fractional numerals), and strings are lists of
unicode scalar characters.
-/

/-- JSON values as produced by JSON.parse; numbers are modelled as
integers and object fields as an ordered association list (JavaScript
objects preserve insertion order). -/
inductive Json where
  | null
  | bool (b : Bool)
  | num (n : Int)
  | str (s : List Char)
  | arr (elems : List Json)
  | obj (fields : List (List Char × Json))

/-- The left-brace character, written via its code point so that brace
characters never appear literally in the file. -/
def lbrace : Char := Char.ofNat 123

/-- The right-brace character. -/
def rbrace : Char := Char.ofNat 125

/-- JSON whitespace characters accepted between tokens by JSON.parse. -/
def isWsChar (c : Char) : Bool := c = ' ' || c = '\t' || c = '\n' || c = '\r'

/-- Skip leading JSON whitespace. -/
def skipWs : List Char → List Char
  | [] => []
  | c :: rest => if isWsChar c then skipWs rest else c :: rest

/-- The character for a decimal digit d < 10. -/
def digCh (d : Nat) : Char := Char.ofNat (48 + d)

/-- Decimal digits of a natural number, most significant first, with
explicit fuel so that the definition is structural (and hence reduces
definitionally). -/
def natCharsAux : Nat → Nat → List Char
  | 0, _ => []
  | fuel + 1, n => if n < 10 then [digCh n] else natCharsAux fuel (n / 10) ++ [digCh (n % 10)]

/-- Decimal digit string of a natural number, as JSON.stringify prints it. -/
def natChars (n : Nat) : List Char := natCharsAux (n + 1) n

/-- Lowercase hexadecimal digit character for d < 16. -/
def hexCh (d : Nat) : Char := Char.ofNat (if d < 10 then 48 + d else 87 + d)

/-- Value of a hexadecimal digit character, as JSON.parse reads a \u escape. -/
def hexVal (c : Char) : Option Nat :=
  if c.isDigit then some (c.toNat - 48)
  else if 'a' ≤ c && c ≤ 'f' then some (c.toNat - 87)
  else if 'A' ≤ c && c ≤ 'F' then some (c.toNat - 55)
  else none

/-- Escape of one character inside a JSON string literal, as produced by
JSON.stringify: quote and backslash get two-character escapes, the common
control characters get their shorthand escapes, the remaining control
characters a \u00XX escape, and every other character stands for itself. -/
def escChar (c : Char) : List Char :=
  if c = '"' then '\\' :: '"' :: []
  else if c = '\\' then '\\' :: '\\' :: []
  else if c = '\n' then '\\' :: 'n' :: []
  else if c = '\t' then '\\' :: 't' :: []
  else if c = '\r' then '\\' :: 'r' :: []
  else if c = '\x08' then '\\' :: 'b' :: []
  else if c = '\x0c' then '\\' :: 'f' :: []
  else if c.toNat < 32 then '\\' :: 'u' :: '0' :: '0' :: hexCh (c.toNat / 16) :: hexCh (c.toNat % 16) :: []
  else [c]

/-- Escape a whole string body. -/
def escapeChars : List Char → List Char
  | [] => []
  | c :: rest => escChar c ++ escapeChars rest

/-- Serialization of a JSON string, including the surrounding quotes. -/
def serializeString (s : List Char) : List Char := '"' :: escapeChars s ++ ['"']

mutual
/-- JSON.stringify on the modelled JSON values (no added whitespace,
fields in insertion order). -/
def serialize : Json → List Char
  | .null => 'n' :: 'u' :: 'l' :: 'l' :: []
  | .bool true => 't' :: 'r' :: 'u' :: 'e' :: []
  | .bool false => 'f' :: 'a' :: 'l' :: 's' :: 'e' :: []
  | .num n => if n < 0 then '-' :: natChars (-n).toNat else natChars n.toNat
  | .str s => serializeString s
  | .arr [] => '[' :: ']' :: []
  | .arr (v :: vs) => '[' :: (serializeList (v :: vs) ++ [']'])
  | .obj [] => lbrace :: rbrace :: []
  | .obj (f :: fs) => lbrace :: (serializeFields (f :: fs) ++ [rbrace])

/-- Comma-separated serialization of array elements. -/
def serializeList : List Json → List Char
  | [] => []
  | [v] => serialize v
  | v :: vs => serialize v ++ ',' :: serializeList vs

/-- Comma-separated serialization of object members. -/
def serializeFields : List (List Char × Json) → List Char
  | [] => []
  | [(k, v)] => serializeString k ++ ':' :: serialize v
  | (k, v) :: fs => serializeString k ++ ':' :: serialize v ++ ',' :: serializeFields fs
end

mutual
/-- Structural size of a JSON value, used as a fuel measure for the parser. -/
def jsize : Json → Nat
  | .null => 1
  | .bool _ => 1
  | .num _ => 1
  | .str _ => 1
  | .arr es => jsizeL es + 1
  | .obj fs => jsizeF fs + 1

/-- Size of a list of array elements. -/
def jsizeL : List Json → Nat
  | [] => 0
  | v :: vs => jsize v + jsizeL vs + 1

/-- Size of a list of object members. -/
def jsizeF : List (List Char × Json) → Nat
  | [] => 0
  | (_, v) :: fs => jsize v + jsizeF fs + 1
end

/-- Parse the body of a JSON string literal after the opening quote,
handling the escape sequences JSON.parse accepts and rejecting raw
control characters; returns the decoded characters and the remaining
input after the closing quote. -/
def parseStringChars : List Char → Option (List Char × List Char)
  | [] => none
  | c :: rest =>
    if c = '"' then some ([], rest)
    else if c = '\\' then
      match rest with
      | [] => none
      | e :: rest2 =>
        if e = '"' then (parseStringChars rest2).map (fun p => ('"' :: p.1, p.2))
        else if e = '\\' then (parseStringChars rest2).map (fun p => ('\\' :: p.1, p.2))
        else if e = '/' then (parseStringChars rest2).map (fun p => ('/' :: p.1, p.2))
        else if e = 'n' then (parseStringChars rest2).map (fun p => ('\n' :: p.1, p.2))
        else if e = 't' then (parseStringChars rest2).map (fun p => ('\t' :: p.1, p.2))
        else if e = 'r' then (parseStringChars rest2).map (fun p => ('\r' :: p.1, p.2))
        else if e = 'b' then (parseStringChars rest2).map (fun p => ('\x08' :: p.1, p.2))
        else if e = 'f' then (parseStringChars rest2).map (fun p => ('\x0c' :: p.1, p.2))
        else if e = 'u' then
          match rest2 with
          | h1 :: h2 :: h3 :: h4 :: rest3 =>
            match hexVal h1, hexVal h2, hexVal h3, hexVal h4 with
            | some a, some b, some c2, some d =>
              (parseStringChars rest3).map (fun p => (Char.ofNat (4096 * a + 256 * b + 16 * c2 + d) :: p.1, p.2))
            | _, _, _, _ => none
          | _ => none
        else none
    else if c.toNat < 32 then none
    else (parseStringChars rest).map (fun p => (c :: p.1, p.2))

/-- The digit-string value of a list of decimal digit characters. -/
def digitsToNat (ds : List Char) : Nat := ds.foldl (fun a c => 10 * a + (c.toNat - 48)) 0

/-- Parse a nonempty run of decimal digits. -/
def parseNat (s : List Char) : Option (Nat × List Char) :=
  match s.takeWhile Char.isDigit with
  | [] => none
  | ds => some (digitsToNat ds, s.dropWhile Char.isDigit)

/-- Parse a JSON integer numeral (optional minus sign followed by digits). -/
def parseNumber (s : List Char) : Option (Json × List Char) :=
  match s with
  | [] => none
  | c :: rest =>
    if c = '-' then (parseNat rest).map (fun p => (Json.num (-(p.1 : Int)), p.2))
    else (parseNat (c :: rest)).map (fun p => (Json.num (p.1 : Int), p.2))

mutual
/-- Recursive-descent JSON parser modelling JSON.parse, with fuel
bounding the nesting depth.  Returns the parsed value and the
unconsumed remainder of the input. -/
def parseValue : Nat → List Char → Option (Json × List Char)
  | 0, _ => none
  | fuel + 1, s =>
    match skipWs s with
    | [] => none
    | c :: rest =>
      if c = '"' then (parseStringChars rest).map (fun p => (Json.str p.1, p.2))
      else if c = 'n' then
        match rest with
        | 'u' :: 'l' :: 'l' :: r => some (Json.null, r)
        | _ => none
      else if c = 't' then
        match rest with
        | 'r' :: 'u' :: 'e' :: r => some (Json.bool true, r)
        | _ => none
      else if c = 'f' then
        match rest with
        | 'a' :: 'l' :: 's' :: 'e' :: r => some (Json.bool false, r)
        | _ => none
      else if c = '[' then
        match skipWs rest with
        | [] => none
        | r :: rs =>
          if r = ']' then some (Json.arr [], rs)
          else (parseElems fuel (r :: rs)).map (fun p => (Json.arr p.1, p.2))
      else if c = lbrace then
        match skipWs rest with
        | [] => none
        | r :: rs =>
          if r = rbrace then some (Json.obj [], rs)
          else (parseMembers fuel (r :: rs)).map (fun p => (Json.obj p.1, p.2))
      else if c = '-' || c.isDigit then parseNumber (c :: rest)
      else none

/-- Parse the elements of a nonempty JSON array up to and including the
closing bracket. -/
def parseElems : Nat → List Char → Option (List Json × List Char)
  | 0, _ => none
  | fuel + 1, s => do
    let (v, r) ← parseValue fuel s
    match skipWs r with
    | [] => none
    | x :: xs =>
      if x = ']' then some ([v], xs)
      else if x = ',' then do
        let (vs, r2) ← parseElems fuel xs
        some (v :: vs, r2)
      else none

/-- Parse the members of a nonempty JSON object up to and including the
closing brace. -/
def parseMembers : Nat → List Char → Option (List (List Char × Json) × List Char)
  | 0, _ => none
  | fuel + 1, s =>
    match skipWs s with
    | [] => none
    | q :: qs =>
      if q = '"' then do
        let (k, r1) ← parseStringChars qs
        match skipWs r1 with
        | [] => none
        | c2 :: r2 =>
          if c2 = ':' then do
            let (v, r3) ← parseValue fuel r2
            match skipWs r3 with
            | [] => none
            | c3 :: r4 =>
              if c3 = rbrace then some ([(k, v)], r4)
              else if c3 = ',' then do
                let (fs, r5) ← parseMembers fuel r4
                some ((k, v) :: fs, r5)
              else none
          else none
      else none
end

/-- JSON.parse on a whole input: parse one value, allow trailing
whitespace, and reject anything else left over.  The fuel length+1 is
always sufficient because each nesting level consumes at least one
character. -/
def parseJson (s : List Char) : Option Json :=
  match parseValue (s.length + 1) s with
  | some (v, rest) => if skipWs rest = [] then some v else none
  | none => none

/-- Remove the trailing segment of characters satisfying p (used to model
the greedy regex match that ends at the last closing brace). -/
def dropLastWhile (p : Char → Bool) (l : List Char) : List Char :=
  (l.reverse.dropWhile p).reverse

/-- The match of the regex used by extractJsonFromText (a left brace,
then anything, greedily, then a right brace): the segment from the first
left brace of the text to the last right brace, when the latter comes
after the former; none when the regex does not match. -/
def jsonMatch (s : List Char) : Option (List Char) :=
  if dropLastWhile (fun c => c != rbrace) (s.dropWhile (fun c => c != lbrace)) = [] then none
  else some (dropLastWhile (fun c => c != rbrace) (s.dropWhile (fun c => c != lbrace)))

/-- Thrown JavaScript values: an Error instance carrying a message, or
any non-Error value. -/
inductive Thrown where
  | error (message : String)
  | nonError

/-- extractJsonFromText from the source: try JSON.parse on the whole
text; otherwise match the brace-delimited segment and try JSON.parse on
it; failures throw the two error messages of the source. -/
def extractJsonFromText (text : List Char) : Except Thrown Json :=
  match parseJson text with
  | some v => .ok v
  | none =>
    match jsonMatch text with
    | some sub =>
      match parseJson sub with
      | some v => .ok v
      | none => .error (.error "Could not parse JSON from response")
    | none => .error (.error "No JSON found in response")

/-- The ExtractionOutcome sum type of the specification: the extractor
either recovers a parsed object or finds nothing. -/
inductive ExtractionOutcome where
  | parsed (v : Json)
  | notFound

/-- The extractor viewed through the specification's outcome type: both
throwing branches of extractJsonFromText are NotFound. -/
def extract (text : List Char) : ExtractionOutcome :=
  match extractJsonFromText text with
  | .ok v => .parsed v
  | .error _ => .notFound

/-- Property lookup on a JavaScript object built by JSON.parse: the last
binding of a key wins; none models undefined. -/
def lookupField : List (List Char × Json) → List Char → Option Json
  | [], _ => none
  | (k, v) :: rest, key =>
    match lookupField rest key with
    | some w => some w
    | none => if k = key then some v else none

/-- JavaScript truthiness of a JSON value: null, false, 0 and the empty
string are falsy; every other value (including empty arrays and empty
objects) is truthy. -/
def truthyJ : Json → Bool
  | .null => false
  | .bool b => b
  | .num n => n != 0
  | .str s => s != []
  | .arr _ => true
  | .obj _ => true

/-- JavaScript truthiness of a possibly-undefined property value. -/
def truthyO : Option Json → Bool
  | none => false
  | some v => truthyJ v

/-- The DebugResult record the source returns from validateDebugResult.
The TypeScript annotation declares the three fields as strings, but the
function performs no runtime type check, so at runtime each field holds
whatever JSON value sat under the key; the model therefore gives the
fields type Json. -/
structure DebugResult where
  problem : Json
  solution : Json
  codeSnippet : Json

/-- validateDebugResult from the source: property access on null throws
a TypeError; otherwise the three keys are read and checked only for
truthiness, and the values are returned unchanged. -/
def validateDebugResult (result : Json) : Except Thrown DebugResult :=
  match result with
  | .null => .error (.error "Cannot read properties of null")
  | .obj fs =>
    match lookupField fs "problem".data, lookupField fs "solution".data, lookupField fs "codeSnippet".data with
    | some pv, some sv, some cv =>
      if truthyJ pv && truthyJ sv && truthyJ cv then .ok ⟨pv, sv, cv⟩
      else .error (.error "Invalid response format")
    | _, _, _ => .error (.error "Invalid response format")
  | _ => .error (.error "Invalid response format")

/-- The provider tags of the model catalog. -/
inductive Provider where
  | google
  | openai
  | anthropic
  | replicate
deriving DecidableEq, Repr

/-- One catalog entry: identifier, display label, provider tag. -/
structure AIModel where
  value : String
  label : String
  provider : Provider
deriving DecidableEq, Repr

/-- The static model catalog AI_MODELS of the source. -/
def AI_MODELS : List AIModel :=
  [ ⟨"gemini-1.5", "Gemini 1.5", .google⟩,
    ⟨"gemini-1.5-flash", "Gemini 1.5 Flash", .google⟩,
    ⟨"gpt-3.5-turbo", "GPT-3.5 Turbo", .openai⟩,
    ⟨"gpt-4", "GPT-4", .openai⟩,
    ⟨"claude-3-opus", "Claude 3", .anthropic⟩,
    ⟨"meta/llama-2-70b-chat", "Llama 3", .replicate⟩ ]

/-- The fixed JSON-shape block occurring verbatim in every prompt. -/
def jsonShapeBlock : String :=
  "\x7b\n  \"problem\": \"detailed analysis of the issue\",\n  \"solution\": \"step-by-step solution\",\n  \"codeSnippet\": \"relevant problematic code section\"\n\x7d"

/-- The opening sentence of the shared expert prompt template. -/
def expertHeader : String :=
  "You are an expert programmer. Analyze this code and problem, then respond ONLY with a JSON object in this exact format:\n"

/-- The label introducing the embedded code sample. -/
def codeLabel : String := "\n\nCode:\n"

/-- The label introducing the embedded problem description. -/
def problemLabel : String := "\n\nProblem Description:\n"

/-- The prompt template shared verbatim by the Gemini, Claude and Llama
handlers in the source. -/
def expertPromptTemplate (code problem : String) : String :=
  expertHeader ++ jsonShapeBlock ++ codeLabel ++ code ++ problemLabel ++ problem

/-- The system message of the OpenAI handler. -/
def openaiSystemPrompt : String :=
  "You are an expert programmer. Respond ONLY with a JSON object containing problem analysis, solution, and problematic code snippet."

/-- The opening of the OpenAI user message. -/
def openaiHeader : String := "Analyze this code and problem:\n\nCode:\n"

/-- The response-shape instruction of the OpenAI user message. -/
def openaiRespond : String := "\n\nRespond ONLY with a JSON object in this exact format:\n"

/-- The user message of the OpenAI handler. -/
def openaiUserPrompt (code problem : String) : String :=
  openaiHeader ++ code ++ problemLabel ++ problem ++ openaiRespond ++ jsonShapeBlock

/-- The user-facing prompt each provider adapter sends. -/
def promptOf : Provider → String → String → String
  | .google, code, problem => expertPromptTemplate code problem
  | .openai, code, problem => openaiUserPrompt code problem
  | .anthropic, code, problem => expertPromptTemplate code problem
  | .replicate, code, problem => expertPromptTemplate code problem

/-- The model identifier each adapter actually sends: Gemini and OpenAI
pass the selected identifier through, while the Claude and Replicate
handlers hardcode a model string. -/
def apiModelOf : Provider → String → String
  | .google, model => model
  | .openai, model => model
  | .anthropic, _ => "claude-3-opus-20240229"
  | .replicate, _ => "meta/llama-2-70b-chat:02e509c789964a7ea8736978a43525956ef40397be9033abf9fd2badfe68c9e3"

/-- One choice of an OpenAI chat-completion response. -/
structure OpenAIChoice where
  message : Option (Option String)

/-- One content block of a Claude response. -/
structure ClaudeBlock where
  text : String

/-- A Replicate run output: a single string, a list of fragments, or
some other non-string payload. -/
inductive ReplicateOutput where
  | str (s : String)
  | frags (l : List String)
  | other

/-- The behaviour of the four provider SDK calls for one dispatch: each
either returns its provider-specific response envelope or throws. -/
structure ProviderEnv where
  gemini : Except Thrown String
  openaiChoices : Except Thrown (List OpenAIChoice)
  claudeContent : Except Thrown (List ClaudeBlock)
  replicateOutput : Except Thrown ReplicateOutput

/-- The component state touched by a dispatch: the displayed result, the
displayed error message, and the loading flag. -/
structure AppState where
  result : Option DebugResult
  error : String
  loading : Bool

/-- One recorded provider invocation (the network call of a dispatch). -/
structure Invocation where
  provider : Provider
  modelId : String
  apiKey : String
  prompt : String

/-- Observable trace of one dispatch: which provider calls were made and
how often the extractor and the validator ran. -/
structure DispatchTrace where
  invocations : List Invocation
  extractorCalls : Nat
  validatorCalls : Nat

/-- The message a caught thrown value displays: its own message when it
is an Error instance, the handler-specific fallback otherwise. -/
def errMsg (t : Thrown) (fallback : String) : String :=
  match t with
  | .error m => m
  | .nonError => fallback

/-- The shared tail of every handler: extract JSON from the raw answer
text, validate it, store the result; any throw is caught and its message
displayed. -/
def runPipeline (text : String) (fallback : String) (st : AppState) : AppState × (Nat × Nat) :=
  match extractJsonFromText text.data with
  | .ok v =>
    match validateDebugResult v with
    | .ok r => ({ st with result := some r }, (1, 1))
    | .error e => ({ st with error := errMsg e fallback }, (1, 1))
  | .error e => ({ st with error := errMsg e fallback }, (1, 0))

/-- handleGeminiDebug from the source. -/
def handleGeminiDebug (code problem apiKey model : String) (env : ProviderEnv) (st : AppState) : AppState × DispatchTrace :=
  let inv : Invocation := ⟨.google, apiModelOf .google model, apiKey, expertPromptTemplate code problem⟩
  match env.gemini with
  | .ok text =>
    let r := runPipeline text "Failed to process Gemini response" st
    (r.1, ⟨[inv], r.2.1, r.2.2⟩)
  | .error e => ({ st with error := errMsg e "Failed to process Gemini response" }, ⟨[inv], 0, 0⟩)

/-- handleOpenAIDebug from the source.  The first completion's content
is read through optional chaining; when it is missing or empty the
handler silently does nothing (the if has no else branch). -/
def handleOpenAIDebug (code problem apiKey model : String) (env : ProviderEnv) (st : AppState) : AppState × DispatchTrace :=
  let inv : Invocation := ⟨.openai, apiModelOf .openai model, apiKey, openaiUserPrompt code problem⟩
  match env.openaiChoices with
  | .ok choices =>
    match choices.head?.bind (fun ch => ch.message) |>.bind (fun m => m) with
    | some content =>
      if content = "" then (st, ⟨[inv], 0, 0⟩)
      else
        let r := runPipeline content "Failed to process OpenAI response" st
        (r.1, ⟨[inv], r.2.1, r.2.2⟩)
    | none => (st, ⟨[inv], 0, 0⟩)
  | .error e => ({ st with error := errMsg e "Failed to process OpenAI response" }, ⟨[inv], 0, 0⟩)

/-- handleClaudeDebug from the source.  Reading content[0].text of an
empty content list throws a TypeError, which the catch turns into a
displayed message. -/
def handleClaudeDebug (code problem apiKey model : String) (env : ProviderEnv) (st : AppState) : AppState × DispatchTrace :=
  let inv : Invocation := ⟨.anthropic, apiModelOf .anthropic model, apiKey, expertPromptTemplate code problem⟩
  match env.claudeContent with
  | .ok blocks =>
    match blocks.head? with
    | some b =>
      let r := runPipeline b.text "Failed to process Claude response" st
      (r.1, ⟨[inv], r.2.1, r.2.2⟩)
    | none => ({ st with error := "Cannot read properties of undefined" }, ⟨[inv], 0, 0⟩)
  | .error e => ({ st with error := errMsg e "Failed to process Claude response" }, ⟨[inv], 0, 0⟩)

/-- handleLlamaDebug from the source.  When typeof output is not string
the handler silently does nothing (the if has no else branch). -/
def handleLlamaDebug (code problem apiKey model : String) (env : ProviderEnv) (st : AppState) : AppState × DispatchTrace :=
  let inv : Invocation := ⟨.replicate, apiModelOf .replicate model, apiKey, expertPromptTemplate code problem⟩
  match env.replicateOutput with
  | .ok (.str s) =>
    let r := runPipeline s "Failed to process Llama response" st
    (r.1, ⟨[inv], r.2.1, r.2.2⟩)
  | .ok _ => (st, ⟨[inv], 0, 0⟩)
  | .error e => ({ st with error := errMsg e "Failed to process Llama response" }, ⟨[inv], 0, 0⟩)

/-- A string is blank when its trim is empty: JavaScript !s.trim() is
true exactly when every character of s is whitespace. -/
def isBlank (s : String) : Bool := s.data.all Char.isWhitespace

/-- handleDebug from the source: reject blank fields before anything
else, clear error and result, look the model up in the catalog, route to
the one adapter for its provider tag (or report an invalid selection),
and finally clear the loading flag. -/
def handleDebug (code problem apiKey model : String) (env : ProviderEnv) (st : AppState) : AppState × DispatchTrace :=
  if isBlank code || isBlank problem || isBlank apiKey then
    ({ st with error := "Please fill in all fields" }, ⟨[], 0, 0⟩)
  else
    let st1 : AppState := { st with loading := true, error := "", result := none }
    let res :=
      match AI_MODELS.find? (fun m => m.value == model) with
      | some m =>
        match m.provider with
        | .google => handleGeminiDebug code problem apiKey model env st1
        | .openai => handleOpenAIDebug code problem apiKey model env st1
        | .anthropic => handleClaudeDebug code problem apiKey model env st1
        | .replicate => handleLlamaDebug code problem apiKey model env st1
      | none => ({ st1 with error := "Invalid model selected" }, ⟨[], 0, 0⟩)
    ({ res.1 with loading := false }, res.2)

theorem skipWs_cons {c : Char} (l : List Char) (h : isWsChar c = false) :
    skipWs (c :: l) = c :: l := by
  simp [skipWs, h]

/-- A list whose head (if any) is not a decimal digit; the parser for a
numeral stops exactly at such a remainder. -/
def noDigitHead (l : List Char) : Prop :=
  ∀ c, l.head? = some c → c.isDigit = false

theorem noDigitHead_nil : noDigitHead [] := by
  intro c h
  simp at h

theorem noDigitHead_cons {c : Char} (l : List Char) (h : c.isDigit = false) :
    noDigitHead (c :: l) := by
  intro d hd
  simp at hd
  subst hd
  exact h

theorem takeWhile_split (p : Char → Bool) (l₁ l₂ : List Char)
    (h₁ : ∀ c ∈ l₁, p c = true) (h₂ : ∀ c, l₂.head? = some c → p c = false) :
    (l₁ ++ l₂).takeWhile p = l₁ ∧ (l₁ ++ l₂).dropWhile p = l₂ := by
  induction l₁ with
  | nil =>
    simp only [List.nil_append]
    cases l₂ with
    | nil => simp
    | cons c t =>
      have hc : p c = false := h₂ c rfl
      simp [List.takeWhile_cons, List.dropWhile_cons, hc]
  | cons a as ih =>
    have ha : p a = true := h₁ a (by simp)
    have ihr := ih (fun c hc => h₁ c (by simp [hc]))
    simp [List.takeWhile_cons, List.dropWhile_cons, ha, ihr.1, ihr.2]

theorem natCharsAux_fuel_irrel (n : Nat) :
    ∀ f1 f2, n < f1 → n < f2 → natCharsAux f1 n = natCharsAux f2 n := by
  induction n using Nat.strong_induction_on with
  | _ n ih =>
    intro f1 f2 h1 h2
    match f1, f2 with
    | g1 + 1, g2 + 1 =>
      by_cases h10 : n < 10
      · simp [natCharsAux, h10]
      · have hdiv : n / 10 < n := Nat.div_lt_self (by omega) (by omega)
        simp only [natCharsAux, h10, if_false]
        rw [ih (n / 10) hdiv g1 g2 (by omega) (by omega)]

theorem natCharsAux_eq_natChars (fuel n : Nat) (h : n < fuel) :
    natCharsAux fuel n = natChars n :=
  natCharsAux_fuel_irrel n fuel (n + 1) h (by omega)

theorem natChars_lt (n : Nat) (h : n < 10) : natChars n = [digCh n] := by
  simp [natChars, natCharsAux, h]

theorem natChars_ge (n : Nat) (h : 10 ≤ n) :
    natChars n = natChars (n / 10) ++ [digCh (n % 10)] := by
  have hdiv : n / 10 < n := Nat.div_lt_self (by omega) (by omega)
  have h1 : natChars n = natCharsAux n (n / 10) ++ [digCh (n % 10)] := by
    simp [natChars, natCharsAux]
    omega
  rw [h1, natCharsAux_eq_natChars n (n / 10) hdiv]

theorem digCh_isDigit (d : Nat) (h : d < 10) : (digCh d).isDigit = true := by
  interval_cases d <;> decide

theorem digCh_toNat (d : Nat) (h : d < 10) : (digCh d).toNat - 48 = d := by
  interval_cases d <;> decide

theorem natChars_digits (n : Nat) : ∀ c ∈ natChars n, c.isDigit = true := by
  induction n using Nat.strong_induction_on with
  | _ n ih =>
    by_cases h10 : n < 10
    · rw [natChars_lt n h10]
      intro c hc
      simp at hc
      subst hc
      exact digCh_isDigit n h10
    · rw [natChars_ge n (by omega)]
      intro c hc
      rcases List.mem_append.mp hc with hl | hr
      · exact ih (n / 10) (Nat.div_lt_self (by omega) (by omega)) c hl
      · simp at hr
        subst hr
        exact digCh_isDigit (n % 10) (Nat.mod_lt n (by omega))

theorem natChars_head (n : Nat) : ∃ d t, d < 10 ∧ natChars n = digCh d :: t := by
  induction n using Nat.strong_induction_on with
  | _ n ih =>
    by_cases h10 : n < 10
    · exact ⟨n, [], h10, natChars_lt n h10⟩
    · obtain ⟨d, t, hd, he⟩ := ih (n / 10) (Nat.div_lt_self (by omega) (by omega))
      refine ⟨d, t ++ [digCh (n % 10)], hd, ?_⟩
      rw [natChars_ge n (by omega), he]
      simp

theorem foldl_natChars (n : Nat) :
    ∀ a, (natChars n).foldl (fun a c => 10 * a + (c.toNat - 48)) a =
      a * 10 ^ (natChars n).length + n := by
  induction n using Nat.strong_induction_on with
  | _ n ih =>
    intro a
    by_cases h10 : n < 10
    · rw [natChars_lt n h10]
      simp [List.foldl, digCh_toNat n h10]
      omega
    · rw [natChars_ge n (by omega)]
      rw [List.foldl_append]
      rw [ih (n / 10) (Nat.div_lt_self (by omega) (by omega)) a]
      simp only [List.foldl, List.length_append, List.length_singleton]
      rw [digCh_toNat (n % 10) (Nat.mod_lt n (by omega))]
      have h1 : 10 * (n / 10) + n % 10 = n := Nat.div_add_mod n 10
      calc 10 * (a * 10 ^ (natChars (n / 10)).length + n / 10) + n % 10
          = 10 * (a * 10 ^ (natChars (n / 10)).length) + (10 * (n / 10) + n % 10) := by ring
        _ = 10 * (a * 10 ^ (natChars (n / 10)).length) + n := by rw [h1]
        _ = a * 10 ^ ((natChars (n / 10)).length + 1) + n := by rw [Nat.pow_succ]; ring

theorem digitsToNat_natChars (n : Nat) : digitsToNat (natChars n) = n := by
  unfold digitsToNat
  rw [foldl_natChars n 0]
  simp

theorem natChars_ne_nil (n : Nat) : natChars n ≠ [] := by
  obtain ⟨d, t, _, he⟩ := natChars_head n
  rw [he]
  simp

theorem parseNat_natChars (n : Nat) (rest : List Char) (h : noDigitHead rest) :
    parseNat (natChars n ++ rest) = some (n, rest) := by
  obtain ⟨tw, dw⟩ := takeWhile_split Char.isDigit (natChars n) rest (natChars_digits n) h
  unfold parseNat
  rw [tw, dw]
  obtain ⟨d, t, hd, he⟩ := natChars_head n
  rw [he]
  simp only []
  rw [← he, digitsToNat_natChars]

theorem digCh_facts (d : Nat) (h : d < 10) :
    isWsChar (digCh d) = false ∧ digCh d ≠ '"' ∧ digCh d ≠ 'n' ∧ digCh d ≠ 't' ∧
    digCh d ≠ 'f' ∧ digCh d ≠ '[' ∧ digCh d ≠ lbrace ∧ digCh d ≠ '-' ∧
    (digCh d).isDigit = true := by
  interval_cases d <;> refine ⟨by decide, by decide, by decide, by decide, by decide, by decide, by decide, by decide, by decide⟩

theorem parseNumber_natChars (n : Nat) (tail : List Char) (h : noDigitHead tail) :
    parseNumber (natChars n ++ tail) = some (Json.num (n : Int), tail) := by
  obtain ⟨d, t, hd, he⟩ := natChars_head n
  obtain ⟨-, -, -, -, -, -, -, hdash, -⟩ := digCh_facts d hd
  have harg : natChars n ++ tail = digCh d :: (t ++ tail) := by rw [he]; simp
  rw [harg]
  simp only [parseNumber, hdash, if_neg, ite_false]
  rw [← harg, parseNat_natChars n tail h]
  simp

theorem parseValue_num (fuel : Nat) (n : Int) (rest : List Char) (h : noDigitHead rest) :
    parseValue (fuel + 1) (serialize (Json.num n) ++ rest) = some (Json.num n, rest) := by
  by_cases hn : n < 0
  · have hser : serialize (Json.num n) = '-' :: natChars (-n).toNat := by
      simp [serialize, hn]
    have hnat := parseNat_natChars (-n).toNat rest h
    have hto : (((-n).toNat : Nat) : Int) = -n := Int.toNat_of_nonneg (by omega)
    have hlb : (('-' : Char) = lbrace) = False := by simp [lbrace]
    rw [hser]
    simp [parseValue, skipWs, isWsChar, parseNumber, hlb, hnat, hto]
  · have hser : serialize (Json.num n) = natChars n.toNat := by
      simp [serialize, hn]
    obtain ⟨d, t, hd, he⟩ := natChars_head n.toNat
    obtain ⟨hws, hq, hn2, ht2, hf2, hbr, hlb, hdash, hdig⟩ := digCh_facts d hd
    have hnat := parseNat_natChars n.toNat rest h
    rw [he] at hnat
    have hto : ((n.toNat : Nat) : Int) = n := Int.toNat_of_nonneg (by omega)
    rw [hser, he]
    simp only [List.cons_append] at hnat ⊢
    simp [parseValue, skipWs, hws, hq, hn2, ht2, hf2, hbr, hlb, hdash, hdig, parseNumber, hnat, hto]

theorem hexVal_hexCh (d : Nat) (h : d < 16) : hexVal (hexCh d) = some d := by
  interval_cases d <;> decide

theorem parseStringChars_escape (s : List Char) : ∀ rest,
    parseStringChars (escapeChars s ++ '"' :: rest) = some (s, rest) := by
  induction s with
  | nil =>
    intro rest
    simp only [escapeChars, List.nil_append]
    rw [parseStringChars.eq_def]
    simp
  | cons c cs ih =>
    intro rest
    by_cases h1 : c = '"'
    · subst h1
      simp only [escapeChars, escChar, if_true, ite_true, List.cons_append, List.nil_append]
      rw [parseStringChars.eq_def]
      simp [ih]
    by_cases h2 : c = '\\'
    · subst h2
      simp only [escapeChars, escChar, if_true, ite_true, if_false, ite_false, h1,
        List.cons_append, List.nil_append]
      rw [parseStringChars.eq_def]
      simp [ih]
    by_cases h3 : c = '\n'
    · subst h3
      simp only [escapeChars, escChar, if_true, ite_true, if_false, ite_false, h1, h2,
        List.cons_append, List.nil_append]
      rw [parseStringChars.eq_def]
      simp [ih]
    by_cases h4 : c = '\t'
    · subst h4
      simp only [escapeChars, escChar, if_true, ite_true, if_false, ite_false, h1, h2, h3,
        List.cons_append, List.nil_append]
      rw [parseStringChars.eq_def]
      simp [ih]
    by_cases h5 : c = '\r'
    · subst h5
      simp only [escapeChars, escChar, if_true, ite_true, if_false, ite_false, h1, h2, h3, h4,
        List.cons_append, List.nil_append]
      rw [parseStringChars.eq_def]
      simp [ih]
    by_cases h6 : c = '\x08'
    · subst h6
      simp only [escapeChars, escChar, if_true, ite_true, if_false, ite_false, h1, h2, h3, h4, h5,
        List.cons_append, List.nil_append]
      rw [parseStringChars.eq_def]
      simp [ih]
    by_cases h7 : c = '\x0c'
    · subst h7
      simp only [escapeChars, escChar, if_true, ite_true, if_false, ite_false, h1, h2, h3, h4, h5,
        h6, List.cons_append, List.nil_append]
      rw [parseStringChars.eq_def]
      simp [ih]
    by_cases h8 : c.toNat < 32
    · have hdiv : c.toNat / 16 < 16 := by omega
      have hmod : c.toNat % 16 < 16 := by omega
      have harith : 16 * (c.toNat / 16) + c.toNat % 16 = c.toNat := by
        omega
      simp only [escapeChars, escChar, h1, h2, h3, h4, h5, h6, h7, h8, if_true, ite_true,
        if_false, ite_false, List.cons_append, List.nil_append]
      rw [parseStringChars.eq_def]
      simp only [show hexVal '0' = some 0 by decide, hexVal_hexCh _ hdiv, hexVal_hexCh _ hmod, ih]
      simp
      rw [harith, Char.ofNat_toNat]
    · have hesc : escChar c = [c] := by
        simp [escChar, h1, h2, h3, h4, h5, h6, h7, h8]
      simp only [escapeChars, hesc, List.cons_append, List.nil_append]
      rw [parseStringChars.eq_def]
      simp [h1, h2, h8, ih]

theorem jsize_pos (v : Json) : 1 ≤ jsize v := by
  cases v <;> simp [jsize]

theorem jsizeL_pos (es : List Json) (h : es ≠ []) : 1 ≤ jsizeL es := by
  cases es with
  | nil => exact absurd rfl h
  | cons v vs => simp [jsizeL]

theorem jsizeF_pos (fs : List (List Char × Json)) (h : fs ≠ []) : 1 ≤ jsizeF fs := by
  cases fs with
  | nil => exact absurd rfl h
  | cons f fs2 => obtain ⟨k, v⟩ := f; simp [jsizeF]

theorem lb_ws : isWsChar lbrace = false := by decide

theorem lb_q : lbrace ≠ '"' := by decide

theorem lb_n : lbrace ≠ 'n' := by decide

theorem lb_t : lbrace ≠ 't' := by decide

theorem lb_f : lbrace ≠ 'f' := by decide

theorem lb_brk : lbrace ≠ '[' := by decide

theorem rb_ws : isWsChar rbrace = false := by decide

theorem q_ne_rb : ('"' : Char) ≠ rbrace := by decide

theorem comma_ne_rb : (',' : Char) ≠ rbrace := by decide

theorem ndh_rb (l : List Char) : noDigitHead (rbrace :: l) :=
  noDigitHead_cons l (by decide)

theorem ndh_comma (l : List Char) : noDigitHead (',' :: l) :=
  noDigitHead_cons l (by decide)

theorem ndh_rbracket (l : List Char) : noDigitHead (']' :: l) :=
  noDigitHead_cons l (by decide)

theorem skipWs_q (l : List Char) : skipWs ('"' :: l) = '"' :: l :=
  skipWs_cons l (by decide)

theorem skipWs_colon (l : List Char) : skipWs (':' :: l) = ':' :: l :=
  skipWs_cons l (by decide)

theorem skipWs_comma (l : List Char) : skipWs (',' :: l) = ',' :: l :=
  skipWs_cons l (by decide)

theorem skipWs_lbracket (l : List Char) : skipWs ('[' :: l) = '[' :: l :=
  skipWs_cons l (by decide)

theorem skipWs_rbracket (l : List Char) : skipWs (']' :: l) = ']' :: l :=
  skipWs_cons l (by decide)

theorem skipWs_lb (l : List Char) : skipWs (lbrace :: l) = lbrace :: l :=
  skipWs_cons l lb_ws

theorem skipWs_rb (l : List Char) : skipWs (rbrace :: l) = rbrace :: l :=
  skipWs_cons l rb_ws

theorem digCh_facts2 (d : Nat) (h : d < 10) :
    digCh d ≠ ']' ∧ digCh d ≠ rbrace ∧ digCh d ≠ ',' := by
  interval_cases d <;> refine ⟨by decide, by decide, by decide⟩

theorem serialize_head (v : Json) :
    ∃ c t, serialize v = c :: t ∧ isWsChar c = false ∧ c ≠ ']' := by
  cases v with
  | null => exact ⟨'n', 'u' :: 'l' :: 'l' :: [], by simp [serialize], by decide, by decide⟩
  | bool b =>
    cases b with
    | true => exact ⟨'t', 'r' :: 'u' :: 'e' :: [], by simp [serialize], by decide, by decide⟩
    | false => exact ⟨'f', 'a' :: 'l' :: 's' :: 'e' :: [], by simp [serialize], by decide, by decide⟩
  | num n =>
    by_cases hn : n < 0
    · exact ⟨'-', natChars (-n).toNat, by simp [serialize, hn], by decide, by decide⟩
    · obtain ⟨d, t, hd, he⟩ := natChars_head n.toNat
      obtain ⟨hws, -, -, -, -, -, -, -, -⟩ := digCh_facts d hd
      obtain ⟨hb, -, -⟩ := digCh_facts2 d hd
      exact ⟨digCh d, t, by simp [serialize, hn, he], hws, hb⟩
  | str s =>
    exact ⟨'"', escapeChars s ++ ['"'], by simp [serialize, serializeString], by decide, by decide⟩
  | arr es =>
    cases es with
    | nil => exact ⟨'[', [']'], by simp [serialize], by decide, by decide⟩
    | cons v vs =>
      exact ⟨'[', serializeList (v :: vs) ++ [']'], by simp [serialize], by decide, by decide⟩
  | obj fs =>
    cases fs with
    | nil => exact ⟨lbrace, [rbrace], by simp [serialize], by decide, by decide⟩
    | cons f fs2 =>
      exact ⟨lbrace, serializeFields (f :: fs2) ++ [rbrace], by simp [serialize], by decide, by decide⟩

theorem serializeList_head (v : Json) (vs : List Json) :
    ∃ c t, serializeList (v :: vs) = c :: t ∧ isWsChar c = false ∧ c ≠ ']' := by
  obtain ⟨c, t0, he, hw, hb⟩ := serialize_head v
  cases vs with
  | nil => exact ⟨c, t0, by simp [serializeList, he], hw, hb⟩
  | cons w ws =>
    exact ⟨c, t0 ++ ',' :: serializeList (w :: ws), by simp [serializeList, he], hw, hb⟩

theorem serializeFields_head (k : List Char) (v : Json) (fs : List (List Char × Json)) :
    ∃ t, serializeFields ((k, v) :: fs) = '"' :: t := by
  cases fs with
  | nil =>
    exact ⟨escapeChars k ++ '"' :: ':' :: serialize v, by simp [serializeFields, serializeString]⟩
  | cons g gs =>
    exact ⟨escapeChars k ++ '"' :: ':' :: (serialize v ++ ',' :: serializeFields (g :: gs)),
      by simp [serializeFields, serializeString]⟩

theorem parse_serialize_all : ∀ fuel,
    (∀ v rest, jsize v ≤ fuel → noDigitHead rest →
      parseValue fuel (serialize v ++ rest) = some (v, rest)) ∧
    (∀ es rest, es ≠ [] → jsizeL es ≤ fuel →
      parseElems fuel (serializeList es ++ ']' :: rest) = some (es, rest)) ∧
    (∀ fs rest, fs ≠ [] → jsizeF fs ≤ fuel →
      parseMembers fuel (serializeFields fs ++ rbrace :: rest) = some (fs, rest)) := by
  intro fuel
  induction fuel with
  | zero =>
    refine ⟨?_, ?_, ?_⟩
    · intro v rest hsz _
      have := jsize_pos v
      omega
    · intro es rest hne hsz
      have := jsizeL_pos es hne
      omega
    · intro fs rest hne hsz
      have := jsizeF_pos fs hne
      omega
  | succ fuel ih =>
    obtain ⟨ihV, ihE, ihM⟩ := ih
    refine ⟨?_, ?_, ?_⟩
    · intro v rest hsz hrest
      cases v with
      | null =>
        rw [show serialize Json.null ++ rest = 'n' :: 'u' :: 'l' :: 'l' :: rest from by
          simp [serialize]]
        simp [parseValue, skipWs, isWsChar]
      | bool b =>
        cases b with
        | true =>
          rw [show serialize (Json.bool true) ++ rest = 't' :: 'r' :: 'u' :: 'e' :: rest from by
            simp [serialize]]
          simp [parseValue, skipWs, isWsChar]
        | false =>
          rw [show serialize (Json.bool false) ++ rest = 'f' :: 'a' :: 'l' :: 's' :: 'e' :: rest from by
            simp [serialize]]
          simp [parseValue, skipWs, isWsChar]
      | num n => exact parseValue_num fuel n rest hrest
      | str s =>
        rw [show serialize (Json.str s) ++ rest = '"' :: (escapeChars s ++ '"' :: rest) from by
          simp [serialize, serializeString]]
        simp [parseValue, skipWs, isWsChar, parseStringChars_escape]
      | arr es =>
        cases es with
        | nil =>
          rw [show serialize (Json.arr []) ++ rest = '[' :: ']' :: rest from by simp [serialize]]
          simp [parseValue, skipWs, isWsChar]
        | cons v vs =>
          obtain ⟨c0, t0, he, hw, hb⟩ := serializeList_head v vs
          have hsz2 : jsizeL (v :: vs) ≤ fuel := by
            simp [jsize] at hsz
            omega
          have hel := ihE (v :: vs) rest (by simp) hsz2
          rw [show serialize (Json.arr (v :: vs)) ++ rest =
              '[' :: (serializeList (v :: vs) ++ ']' :: rest) from by simp [serialize]]
          rw [he] at hel ⊢
          simp only [List.cons_append] at hel ⊢
          simp [parseValue, skipWs_lbracket, skipWs_cons _ hw, hb, hel]
      | obj fs =>
        cases fs with
        | nil =>
          rw [show serialize (Json.obj []) ++ rest = lbrace :: rbrace :: rest from by
            simp [serialize]]
          simp [parseValue, skipWs_lb, skipWs_rb, lb_q, lb_n, lb_t, lb_f, lb_brk]
        | cons f fs2 =>
          obtain ⟨k, v⟩ := f
          obtain ⟨t0, ht0⟩ := serializeFields_head k v fs2
          have hsz2 : jsizeF ((k, v) :: fs2) ≤ fuel := by
            simp [jsize] at hsz
            omega
          have hms := ihM ((k, v) :: fs2) rest (by simp) hsz2
          rw [show serialize (Json.obj ((k, v) :: fs2)) ++ rest =
              lbrace :: (serializeFields ((k, v) :: fs2) ++ rbrace :: rest) from by
            simp [serialize]]
          rw [ht0] at hms ⊢
          simp only [List.cons_append] at hms ⊢
          simp [parseValue, skipWs_lb, skipWs_q, lb_q, lb_n, lb_t, lb_f, lb_brk, q_ne_rb, hms]
    · intro es rest hne hsz
      cases es with
      | nil => exact absurd rfl hne
      | cons v vs =>
        cases vs with
        | nil =>
          have hv := ihV v (']' :: rest) (by simp [jsizeL] at hsz; omega) (ndh_rbracket rest)
          rw [show serializeList [v] ++ ']' :: rest = serialize v ++ ']' :: rest from by
            simp [serializeList]]
          simp [parseElems, hv, skipWs_rbracket]
        | cons w ws =>
          have hv := ihV v (',' :: (serializeList (w :: ws) ++ ']' :: rest))
            (by simp [jsizeL] at hsz; omega) (ndh_comma _)
          have hel := ihE (w :: ws) rest (by simp) (by
            have hq := jsize_pos v
            simp [jsizeL] at hsz ⊢
            omega)
          rw [show serializeList (v :: w :: ws) ++ ']' :: rest =
              serialize v ++ (',' :: (serializeList (w :: ws) ++ ']' :: rest)) from by
            simp [serializeList]]
          simp [parseElems, hv, hel, skipWs_comma]
    · intro fs rest hne hsz
      cases fs with
      | nil => exact absurd rfl hne
      | cons f fs2 =>
        obtain ⟨k, v⟩ := f
        cases fs2 with
        | nil =>
          have hv := ihV v (rbrace :: rest) (by simp [jsizeF] at hsz; omega) (ndh_rb rest)
          rw [show serializeFields [(k, v)] ++ rbrace :: rest =
              '"' :: (escapeChars k ++ '"' :: (':' :: (serialize v ++ rbrace :: rest))) from by
            simp [serializeFields, serializeString]]
          simp [parseMembers, skipWs_q, skipWs_colon, skipWs_rb, parseStringChars_escape, hv]
        | cons g gs =>
          obtain ⟨gk, gv⟩ := g
          have hv := ihV v (',' :: (serializeFields ((gk, gv) :: gs) ++ rbrace :: rest))
            (by simp [jsizeF] at hsz; omega) (ndh_comma _)
          have hms := ihM ((gk, gv) :: gs) rest (by simp) (by
            have hq := jsize_pos v
            simp [jsizeF] at hsz ⊢
            omega)
          rw [show serializeFields ((k, v) :: (gk, gv) :: gs) ++ rbrace :: rest =
              '"' :: (escapeChars k ++ '"' :: (':' :: (serialize v ++
                (',' :: (serializeFields ((gk, gv) :: gs) ++ rbrace :: rest))))) from by
            simp [serializeFields, serializeString]]
          simp [parseMembers, skipWs_q, skipWs_colon, skipWs_comma, parseStringChars_escape, hv, hms, comma_ne_rb]

theorem jsize_le_len : ∀ bound,
    (∀ v, jsize v ≤ bound → jsize v ≤ (serialize v).length) ∧
    (∀ es, jsizeL es ≤ bound → jsizeL es ≤ (serializeList es).length + 1) ∧
    (∀ fs, jsizeF fs ≤ bound → jsizeF fs ≤ (serializeFields fs).length + 1) := by
  intro bound
  induction bound with
  | zero =>
    refine ⟨?_, ?_, ?_⟩
    · intro v h
      have := jsize_pos v
      omega
    · intro es h
      cases es with
      | nil => simp [jsizeL]
      | cons v vs =>
        have := jsizeL_pos (v :: vs) (by simp)
        omega
    · intro fs h
      cases fs with
      | nil => simp [jsizeF]
      | cons f fs2 =>
        have := jsizeF_pos (f :: fs2) (by simp)
        omega
  | succ bound ih =>
    obtain ⟨ihV, ihE, ihF⟩ := ih
    refine ⟨?_, ?_, ?_⟩
    · intro v h
      cases v with
      | null => simp [jsize, serialize]
      | bool b => cases b <;> simp [jsize, serialize]
      | num n =>
        have h1 : (serialize (Json.num n)).length ≥ 1 := by
          by_cases hn : n < 0
          · simp [serialize, hn]
          · simp [serialize, hn]
            obtain ⟨d, t, -, he⟩ := natChars_head n.toNat
            simp [he]
        simp only [jsize]
        omega
      | str s =>
        simp [jsize, serialize, serializeString]
      | arr es =>
        cases es with
        | nil => simp [jsize, jsizeL, serialize]
        | cons v vs =>
          have hl := ihE (v :: vs) (by simp [jsize] at h; omega)
          simp only [jsize, serialize] at *
          simp only [List.length_cons, List.length_append, List.length_singleton]
          omega
      | obj fs =>
        cases fs with
        | nil => simp [jsize, jsizeF, serialize]
        | cons f fs2 =>
          obtain ⟨k, v⟩ := f
          have hl := ihF ((k, v) :: fs2) (by simp [jsize] at h; omega)
          simp only [jsize, serialize] at *
          simp only [List.length_cons, List.length_append, List.length_singleton]
          omega
    · intro es h
      cases es with
      | nil => simp [jsizeL]
      | cons v vs =>
        cases vs with
        | nil =>
          have hv := ihV v (by simp [jsizeL] at h; omega)
          simp only [jsizeL, serializeList]
          omega
        | cons w ws =>
          have hv := ihV v (by
            have := jsizeL_pos (w :: ws) (by simp)
            simp [jsizeL] at h ⊢
            omega)
          have hl := ihE (w :: ws) (by
            have := jsize_pos v
            simp [jsizeL] at h ⊢
            omega)
          simp only [jsizeL, serializeList] at *
          simp only [List.length_append, List.length_cons]
          omega
    · intro fs h
      cases fs with
      | nil => simp [jsizeF]
      | cons f fs2 =>
        obtain ⟨k, v⟩ := f
        cases fs2 with
        | nil =>
          have hv := ihV v (by simp [jsizeF] at h; omega)
          simp only [jsizeF, serializeFields]
          simp only [List.length_append, List.length_cons]
          omega
        | cons g gs =>
          obtain ⟨gk, gv⟩ := g
          have hv := ihV v (by
            have := jsizeF_pos ((gk, gv) :: gs) (by simp)
            simp [jsizeF] at h ⊢
            omega)
          have hl := ihF ((gk, gv) :: gs) (by
            have := jsize_pos v
            simp [jsizeF] at h ⊢
            omega)
          simp only [jsizeF, serializeFields] at *
          simp only [List.length_append, List.length_cons]
          omega

theorem parseJson_serialize (v : Json) : parseJson (serialize v) = some v := by
  have hsz : jsize v ≤ (serialize v).length := (jsize_le_len (jsize v)).1 v le_rfl
  have h := (parse_serialize_all ((serialize v).length + 1)).1 v [] (by omega) noDigitHead_nil
  rw [List.append_nil] at h
  unfold parseJson
  rw [h]
  simp [skipWs]

theorem parseValue_nonstarter (fuel : Nat) (t : List Char) :
    parseValue (fuel + 1) ('H' :: t) = none := by
  simp [parseValue, skipWs, isWsChar, show ('H' : Char) ≠ lbrace from by decide]

theorem parseJson_H (t : List Char) : parseJson ('H' :: t) = none := by
  unfold parseJson
  rw [show ('H' :: t).length + 1 = (t.length + 1) + 1 from by simp]
  rw [parseValue_nonstarter]

theorem dropWhile_append_all (p : Char → Bool) (l₁ l₂ : List Char) (h : l₁.all p = true) :
    (l₁ ++ l₂).dropWhile p = l₂.dropWhile p := by
  induction l₁ with
  | nil => simp
  | cons a as ih =>
    simp only [List.all_cons, Bool.and_eq_true] at h
    simp [List.dropWhile_cons, h.1, ih h.2]

theorem all_reverse_chars (p : Char → Bool) (l : List Char) : l.reverse.all p = l.all p := by
  simp [List.all_eq_true]

theorem dropWhile_cons_false {p : Char → Bool} {c : Char} (l : List Char) (h : p c = false) :
    List.dropWhile p (c :: l) = c :: l := by
  simp [List.dropWhile_cons, h]

theorem jsonMatch_embedded (pre mid suf : List Char)
    (hpre : pre.all (fun c => c != lbrace) = true)
    (hsuf : suf.all (fun c => c != rbrace) = true) :
    jsonMatch (pre ++ (lbrace :: (mid ++ [rbrace])) ++ suf) =
      some (lbrace :: (mid ++ [rbrace])) := by
  unfold jsonMatch dropLastWhile
  rw [show pre ++ (lbrace :: (mid ++ [rbrace])) ++ suf =
      pre ++ ((lbrace :: (mid ++ [rbrace])) ++ suf) from by simp]
  rw [dropWhile_append_all _ pre _ hpre]
  rw [show (lbrace :: (mid ++ [rbrace])) ++ suf = lbrace :: (mid ++ ([rbrace] ++ suf)) from by simp]
  rw [dropWhile_cons_false _ (by simp)]
  rw [show (lbrace :: (mid ++ ([rbrace] ++ suf))).reverse =
      suf.reverse ++ (rbrace :: (mid.reverse ++ [lbrace])) from by simp]
  rw [dropWhile_append_all _ suf.reverse _ (by rw [all_reverse_chars]; exact hsuf)]
  rw [dropWhile_cons_false _ (by simp)]
  rw [show (rbrace :: (mid.reverse ++ [lbrace])).reverse = lbrace :: (mid ++ [rbrace]) from by simp]
  simp

theorem extract_of_parse (t : List Char) (v : Json) (h : parseJson t = some v) :
    extract t = .parsed v := by
  unfold extract extractJsonFromText
  rw [h]

theorem extract_of_nomatch (t : List Char) (h1 : parseJson t = none) (h2 : jsonMatch t = none) :
    extract t = .notFound := by
  unfold extract extractJsonFromText
  rw [h1, h2]

theorem extract_of_submatch (t sub : List Char) (v : Json) (h1 : parseJson t = none)
    (h2 : jsonMatch t = some sub) (h3 : parseJson sub = some v) :
    extract t = .parsed v := by
  unfold extract extractJsonFromText
  simp [h1, h2, h3]

theorem extract_of_subfail (t sub : List Char) (h1 : parseJson t = none)
    (h2 : jsonMatch t = some sub) (h3 : parseJson sub = none) :
    extract t = .notFound := by
  unfold extract extractJsonFromText
  simp [h1, h2, h3]

/-- The three keys the validator requires, as a property of an object's
field list. -/
def hasRequiredKeys (fs : List (List Char × Json)) : Prop :=
  "problem".data ∈ fs.map Prod.fst ∧ "solution".data ∈ fs.map Prod.fst ∧
    "codeSnippet".data ∈ fs.map Prod.fst

theorem extract_embedded_obj (fs : List (List Char × Json)) :
    extract ("Here you go: ".data ++ serialize (Json.obj fs) ++ " Hope that helps!".data) =
      .parsed (Json.obj fs) := by
  have hser : ∃ mid, serialize (Json.obj fs) = lbrace :: (mid ++ [rbrace]) := by
    cases fs with
    | nil => exact ⟨[], by simp [serialize]⟩
    | cons f fs2 => exact ⟨serializeFields (f :: fs2), by simp [serialize]⟩
  obtain ⟨mid, hmid⟩ := hser
  have hfull : "Here you go: ".data ++ serialize (Json.obj fs) ++ " Hope that helps!".data =
      'H' :: ("ere you go: ".data ++ serialize (Json.obj fs) ++ " Hope that helps!".data) := by
    simp [show "Here you go: ".data = 'H' :: "ere you go: ".data from rfl]
  have h1 : parseJson ("Here you go: ".data ++ serialize (Json.obj fs) ++ " Hope that helps!".data) = none := by
    rw [hfull]
    exact parseJson_H _
  have h2 := jsonMatch_embedded ("Here you go: ".data) mid (" Hope that helps!".data)
    (by decide) (by decide)
  rw [← hmid] at h2
  exact extract_of_submatch _ _ _ h1 h2 (parseJson_serialize (Json.obj fs))

/-- The thrown value of the selected provider SDK call, when it throws. -/
def callThrown (env : ProviderEnv) : Provider → Option Thrown
  | .google =>
    match env.gemini with
    | .error e => some e
    | .ok _ => none
  | .openai =>
    match env.openaiChoices with
    | .error e => some e
    | .ok _ => none
  | .anthropic =>
    match env.claudeContent with
    | .error e => some e
    | .ok _ => none
  | .replicate =>
    match env.replicateOutput with
    | .error e => some e
    | .ok _ => none

/-- The fallback message each handler displays for a non-Error throw. -/
def providerFallback : Provider → String
  | .google => "Failed to process Gemini response"
  | .openai => "Failed to process OpenAI response"
  | .anthropic => "Failed to process Claude response"
  | .replicate => "Failed to process Llama response"

theorem gemini_invocations (code problem apiKey model : String) (env : ProviderEnv) (st : AppState) :
    (handleGeminiDebug code problem apiKey model env st).2.invocations =
      [⟨.google, apiModelOf .google model, apiKey, expertPromptTemplate code problem⟩] := by
  unfold handleGeminiDebug
  rcases h : env.gemini with e | s <;> simp [h]

theorem openai_invocations (code problem apiKey model : String) (env : ProviderEnv) (st : AppState) :
    (handleOpenAIDebug code problem apiKey model env st).2.invocations =
      [⟨.openai, apiModelOf .openai model, apiKey, openaiUserPrompt code problem⟩] := by
  unfold handleOpenAIDebug
  rcases h : env.openaiChoices with e | cs
  · simp [h]
  · simp only [h]
    rcases hc : (cs.head?.bind (fun ch => ch.message)).bind (fun m => m) with _ | content
    · simp [hc]
    · by_cases he : content = "" <;> simp [hc, he]

theorem claude_invocations (code problem apiKey model : String) (env : ProviderEnv) (st : AppState) :
    (handleClaudeDebug code problem apiKey model env st).2.invocations =
      [⟨.anthropic, apiModelOf .anthropic model, apiKey, expertPromptTemplate code problem⟩] := by
  unfold handleClaudeDebug
  rcases h : env.claudeContent with e | blocks
  · simp [h]
  · rcases hb : blocks.head? with _ | b <;> simp [h, hb]

theorem llama_invocations (code problem apiKey model : String) (env : ProviderEnv) (st : AppState) :
    (handleLlamaDebug code problem apiKey model env st).2.invocations =
      [⟨.replicate, apiModelOf .replicate model, apiKey, expertPromptTemplate code problem⟩] := by
  unfold handleLlamaDebug
  rcases h : env.replicateOutput with e | out
  · simp [h]
  · cases out <;> simp [h]

/-- A contiguous-segment (substring) relation on character lists. -/
def containsSeg (pat l : List Char) : Prop := ∃ s t, l = s ++ pat ++ t

/-- Boolean check that pat is an initial segment of l. -/
def leadsWith : List Char → List Char → Bool
  | [], _ => true
  | _ :: _, [] => false
  | a :: as, b :: bs => a == b && leadsWith as bs

/-- Boolean check that pat occurs as a contiguous segment of l. -/
def hasSegB (pat : List Char) : List Char → Bool
  | [] => leadsWith pat []
  | c :: t => leadsWith pat (c :: t) || hasSegB pat t

theorem leadsWith_correct : ∀ pat l, leadsWith pat l = true → ∃ t, l = pat ++ t := by
  intro pat
  induction pat with
  | nil => exact fun l _ => ⟨l, rfl⟩
  | cons a as ih =>
    intro l h
    cases l with
    | nil => simp [leadsWith] at h
    | cons b bs =>
      simp only [leadsWith, Bool.and_eq_true, beq_iff_eq] at h
      obtain ⟨t, ht⟩ := ih bs h.2
      exact ⟨t, by simp [h.1, ht]⟩

theorem hasSegB_correct : ∀ l pat, hasSegB pat l = true → containsSeg pat l := by
  intro l
  induction l with
  | nil =>
    intro pat h
    simp only [hasSegB] at h
    obtain ⟨t, ht⟩ := leadsWith_correct pat [] h
    exact ⟨[], t, by simp [ht]⟩
  | cons c t ih =>
    intro pat h
    simp only [hasSegB, Bool.or_eq_true] at h
    rcases h with h | h
    · obtain ⟨r, hr⟩ := leadsWith_correct pat (c :: t) h
      exact ⟨[], r, by simp [hr]⟩
    · obtain ⟨s, r, hsr⟩ := ih pat h
      exact ⟨c :: s, r, by simp [hsr]⟩

theorem containsSeg_refl (pat : List Char) : containsSeg pat pat :=
  ⟨[], [], by simp⟩

theorem containsSeg_appended_left (pat l r : List Char) (h : containsSeg pat r) :
    containsSeg pat (l ++ r) := by
  obtain ⟨s, t, hst⟩ := h
  exact ⟨l ++ s, t, by simp [hst]⟩

theorem containsSeg_appended_right (pat l r : List Char) (h : containsSeg pat l) :
    containsSeg pat (l ++ r) := by
  obtain ⟨s, t, hst⟩ := h
  exact ⟨s, t ++ r, by simp [hst]⟩

/-- C1: The claim says every dispatch ends in exactly one of two outcomes
(a validated result or a classified error), in particular when the OpenAI
adapter's first completion has no message content.  The code violates
this: with non-blank inputs, the catalog model gpt-4 and an OpenAI
response whose choices list is empty, the dispatch runs the provider call
(one invocation) and then terminates with result cleared, error message
empty, and the extractor never invoked — neither a result nor an error. -/
theorem openai_missing_content_silent :
    (handleDebug "let x = 1;" "it crashes" "sk-test" "gpt-4"
      ⟨.error .nonError, .ok [], .error .nonError, .error .nonError⟩
      ⟨none, "", false⟩).1.result = none ∧
    (handleDebug "let x = 1;" "it crashes" "sk-test" "gpt-4"
      ⟨.error .nonError, .ok [], .error .nonError, .error .nonError⟩
      ⟨none, "", false⟩).1.error = "" ∧
    (handleDebug "let x = 1;" "it crashes" "sk-test" "gpt-4"
      ⟨.error .nonError, .ok [], .error .nonError, .error .nonError⟩
      ⟨none, "", false⟩).1.loading = false ∧
    (handleDebug "let x = 1;" "it crashes" "sk-test" "gpt-4"
      ⟨.error .nonError, .ok [], .error .nonError, .error .nonError⟩
      ⟨none, "", false⟩).2.invocations.length = 1 ∧
    (handleDebug "let x = 1;" "it crashes" "sk-test" "gpt-4"
      ⟨.error .nonError, .ok [], .error .nonError, .error .nonError⟩
      ⟨none, "", false⟩).2.extractorCalls = 0 :=
  ⟨rfl, rfl, rfl, rfl, rfl⟩

/-- C2: The claim says a Replicate output that is not a single string
must produce the classified failure UnsupportedOutputShape.  The code
instead silently does nothing: with non-blank inputs, the catalog model
meta/llama-2-70b-chat and a Replicate output that is a list of text
fragments, the dispatch makes the provider call and then terminates with
no result, an empty error message, and no UnsupportedOutputShape (or
any) classification — the typeof check simply skips the body. -/
theorem replicate_nonstring_silent :
    (handleDebug "let x = 1;" "it crashes" "r8-test" "meta/llama-2-70b-chat"
      ⟨.error .nonError, .error .nonError, .error .nonError,
        .ok (.frags ["I looked at", " your code"])⟩
      ⟨none, "", false⟩).1.result = none ∧
    (handleDebug "let x = 1;" "it crashes" "r8-test" "meta/llama-2-70b-chat"
      ⟨.error .nonError, .error .nonError, .error .nonError,
        .ok (.frags ["I looked at", " your code"])⟩
      ⟨none, "", false⟩).1.error = "" ∧
    (handleDebug "let x = 1;" "it crashes" "r8-test" "meta/llama-2-70b-chat"
      ⟨.error .nonError, .error .nonError, .error .nonError,
        .ok (.frags ["I looked at", " your code"])⟩
      ⟨none, "", false⟩).2.invocations.length = 1 ∧
    (handleDebug "let x = 1;" "it crashes" "r8-test" "meta/llama-2-70b-chat"
      ⟨.error .nonError, .error .nonError, .error .nonError,
        .ok (.frags ["I looked at", " your code"])⟩
      ⟨none, "", false⟩).2.extractorCalls = 0 :=
  ⟨rfl, rfl, rfl, rfl⟩

/-- C3 counterexample: the claim says a value of the wrong type (e.g. a
number) at one of the three keys yields InvalidShape with no result, but
validateDebugResult accepts the truthy number 5 under the key problem and
returns a result containing it. -/
theorem validate_accepts_wrong_type :
    validateDebugResult (Json.obj [("problem".data, Json.num 5),
      ("solution".data, Json.str "x".data), ("codeSnippet".data, Json.str "y".data)]) =
      .ok ⟨Json.num 5, Json.str "x".data, Json.str "y".data⟩ :=
  rfl

/-- C3 amended: validate(object) returns a result exactly when the values
at the keys problem, solution and codeSnippet are all JavaScript-truthy
(missing keys, empty strings, 0, false and null are rejected, but truthy
values of any type such as non-zero numbers or objects are accepted); on
success the three values are passed through unchanged with no coercion,
and on failure the invalid-format error is reported with no partial
result. -/
theorem validate_truthiness_spec (fs : List (List Char × Json)) :
    ((validateDebugResult (Json.obj fs)).isOk = true ↔
      (truthyO (lookupField fs "problem".data) = true ∧
       truthyO (lookupField fs "solution".data) = true ∧
       truthyO (lookupField fs "codeSnippet".data) = true)) ∧
    (∀ r, validateDebugResult (Json.obj fs) = .ok r →
      lookupField fs "problem".data = some r.problem ∧
      lookupField fs "solution".data = some r.solution ∧
      lookupField fs "codeSnippet".data = some r.codeSnippet) ∧
    ((validateDebugResult (Json.obj fs)).isOk = false →
      validateDebugResult (Json.obj fs) = .error (.error "Invalid response format")) := by
  unfold validateDebugResult
  rcases hp : lookupField fs "problem".data with _ | pv
  · simp [hp, truthyO, Except.isOk, Except.toBool]
  · rcases hs : lookupField fs "solution".data with _ | sv
    · simp [hp, hs, truthyO, Except.isOk, Except.toBool]
    · rcases hc : lookupField fs "codeSnippet".data with _ | cv
      · simp [hp, hs, hc, truthyO, Except.isOk, Except.toBool]
      · by_cases h1 : truthyJ pv <;> by_cases h2 : truthyJ sv <;> by_cases h3 : truthyJ cv <;>
          simp [hp, hs, hc, truthyO, Except.isOk, Except.toBool, h1, h2, h3]

/-- C3 witness: a concrete object with truthy string values at all three
keys is accepted by the validator. -/
theorem validate_truthiness_spec_witness :
    (validateDebugResult (Json.obj [("problem".data, Json.str "p".data),
      ("solution".data, Json.str "s".data), ("codeSnippet".data, Json.str "c".data)])).isOk = true :=
  (validate_truthiness_spec _).1.mpr ⟨rfl, rfl, rfl⟩

/-- C4: extract follows the ordered two-phase algorithm with first
success winning — parse the whole text, otherwise parse the segment from
the first left brace to the last right brace, otherwise NotFound; in
particular prose-wrapped serialized three-key objects are recovered, and
a braceless text yields NotFound. -/
theorem extract_two_phase :
    (∀ t v, parseJson t = some v → extract t = .parsed v) ∧
    (∀ t sub v, parseJson t = none → jsonMatch t = some sub → parseJson sub = some v →
      extract t = .parsed v) ∧
    (∀ t, parseJson t = none → jsonMatch t = none → extract t = .notFound) ∧
    (∀ t sub, parseJson t = none → jsonMatch t = some sub → parseJson sub = none →
      extract t = .notFound) ∧
    (∀ fs, hasRequiredKeys fs →
      extract ("Here you go: ".data ++ serialize (Json.obj fs) ++ " Hope that helps!".data) =
        .parsed (Json.obj fs)) ∧
    extract "no braces here".data = .notFound :=
  ⟨extract_of_parse, extract_of_submatch, extract_of_nomatch, extract_of_subfail,
    fun fs _ => extract_embedded_obj fs, rfl⟩

/-- C4 witness: a concrete three-key object serialized and wrapped in
prose is recovered by the extractor via the substring phase. -/
theorem extract_two_phase_witness :
    extract ("Here you go: ".data ++ serialize (Json.obj [("problem".data, Json.str "a".data),
      ("solution".data, Json.str "b".data), ("codeSnippet".data, Json.str "c".data)]) ++
      " Hope that helps!".data) =
      .parsed (Json.obj [("problem".data, Json.str "a".data),
        ("solution".data, Json.str "b".data), ("codeSnippet".data, Json.str "c".data)]) :=
  extract_two_phase.2.2.2.2.1 _ ⟨by simp, by simp, by simp⟩

/-- C5: extractor round-trip — for every JSON object carrying the three
required keys, serializing it and extracting recovers exactly the same
object (via the direct-parse phase). -/
theorem extract_serialize_roundtrip (fs : List (List Char × Json)) (h : hasRequiredKeys fs) :
    extract (serialize (Json.obj fs)) = .parsed (Json.obj fs) :=
  extract_of_parse _ _ (parseJson_serialize (Json.obj fs))

/-- C5 witness: round-trip on a concrete three-key object. -/
theorem extract_serialize_roundtrip_witness :
    extract (serialize (Json.obj [("problem".data, Json.str "p".data),
      ("solution".data, Json.str "s".data), ("codeSnippet".data, Json.str "c".data)])) =
      .parsed (Json.obj [("problem".data, Json.str "p".data),
        ("solution".data, Json.str "s".data), ("codeSnippet".data, Json.str "c".data)]) :=
  extract_serialize_roundtrip _ ⟨by simp, by simp, by simp⟩

/-- C6: for every model identifier absent from the catalog, the dispatch
makes no provider invocation, and (with non-blank inputs) fails with the
unknown-model error message the source displays for this case. -/
theorem unknown_model_no_call (code problem apiKey model : String) (env : ProviderEnv)
    (st : AppState) (hm : ∀ m ∈ AI_MODELS, m.value ≠ model) :
    (handleDebug code problem apiKey model env st).2.invocations = [] ∧
    (isBlank code = false → isBlank problem = false → isBlank apiKey = false →
      (handleDebug code problem apiKey model env st).1.error = "Invalid model selected") := by
  have hfind : AI_MODELS.find? (fun m => m.value == model) = none := by
    rw [List.find?_eq_none]
    intro m hmem
    simpa using hm m hmem
  constructor
  · by_cases hb : (isBlank code || isBlank problem || isBlank apiKey) = true
    · simp [handleDebug, hb]
    · simp [handleDebug, hb, hfind]
  · intro h1 h2 h3
    simp [handleDebug, h1, h2, h3, hfind]

/-- C6 witness: a concrete dispatch with the unknown identifier model-x
makes no invocation and reports the unknown-model error. -/
theorem unknown_model_no_call_witness :
    (handleDebug "a" "b" "c" "model-x"
      ⟨.error .nonError, .error .nonError, .error .nonError, .error .nonError⟩
      ⟨none, "", false⟩).2.invocations = [] ∧
    (handleDebug "a" "b" "c" "model-x"
      ⟨.error .nonError, .error .nonError, .error .nonError, .error .nonError⟩
      ⟨none, "", false⟩).1.error = "Invalid model selected" := by
  have h := unknown_model_no_call "a" "b" "c" "model-x"
    ⟨.error .nonError, .error .nonError, .error .nonError, .error .nonError⟩
    ⟨none, "", false⟩ (by decide)
  exact ⟨h.1, h.2 rfl rfl rfl⟩

/-- C7: whenever the selected provider's SDK call throws, the dispatch
terminates with the caught message displayed (the thrown Error message,
or the handler fallback for a non-Error throw), no result, and neither
the extractor nor the validator invoked. -/
theorem provider_throw_classified (code problem apiKey model : String) (env : ProviderEnv)
    (st : AppState) (m : AIModel) (t : Thrown)
    (h1 : isBlank code = false) (h2 : isBlank problem = false) (h3 : isBlank apiKey = false)
    (hfind : AI_MODELS.find? (fun x => x.value == model) = some m)
    (hthrow : callThrown env m.provider = some t) :
    (handleDebug code problem apiKey model env st).1.error = errMsg t (providerFallback m.provider) ∧
    (handleDebug code problem apiKey model env st).1.result = none ∧
    (handleDebug code problem apiKey model env st).2.extractorCalls = 0 ∧
    (handleDebug code problem apiKey model env st).2.validatorCalls = 0 := by
  obtain ⟨mv, ml, mp⟩ := m
  cases mp
  · rcases hg : env.gemini with e | s
    · simp only [callThrown, hg, Option.some.injEq] at hthrow
      simp [handleDebug, h1, h2, h3, hfind, handleGeminiDebug, hg, providerFallback, hthrow]
    · simp [callThrown, hg] at hthrow
  · rcases hg : env.openaiChoices with e | s
    · simp only [callThrown, hg, Option.some.injEq] at hthrow
      simp [handleDebug, h1, h2, h3, hfind, handleOpenAIDebug, hg, providerFallback, hthrow]
    · simp [callThrown, hg] at hthrow
  · rcases hg : env.claudeContent with e | s
    · simp only [callThrown, hg, Option.some.injEq] at hthrow
      simp [handleDebug, h1, h2, h3, hfind, handleClaudeDebug, hg, providerFallback, hthrow]
    · simp [callThrown, hg] at hthrow
  · rcases hg : env.replicateOutput with e | s
    · simp only [callThrown, hg, Option.some.injEq] at hthrow
      simp [handleDebug, h1, h2, h3, hfind, handleLlamaDebug, hg, providerFallback, hthrow]
    · simp [callThrown, hg] at hthrow

/-- C7 witness: a Gemini call that throws an Error with message 401
unauthorized yields exactly that displayed message, no result, and no
extractor or validator call. -/
theorem provider_throw_classified_witness :
    (handleDebug "x" "y" "z" "gemini-1.5"
      ⟨.error (.error "401 unauthorized"), .error .nonError, .error .nonError, .error .nonError⟩
      ⟨none, "", false⟩).1.error =
        errMsg (.error "401 unauthorized") (providerFallback Provider.google) ∧
    (handleDebug "x" "y" "z" "gemini-1.5"
      ⟨.error (.error "401 unauthorized"), .error .nonError, .error .nonError, .error .nonError⟩
      ⟨none, "", false⟩).1.result = none ∧
    (handleDebug "x" "y" "z" "gemini-1.5"
      ⟨.error (.error "401 unauthorized"), .error .nonError, .error .nonError, .error .nonError⟩
      ⟨none, "", false⟩).2.extractorCalls = 0 ∧
    (handleDebug "x" "y" "z" "gemini-1.5"
      ⟨.error (.error "401 unauthorized"), .error .nonError, .error .nonError, .error .nonError⟩
      ⟨none, "", false⟩).2.validatorCalls = 0 :=
  provider_throw_classified "x" "y" "z" "gemini-1.5" _ _
    ⟨"gemini-1.5", "Gemini 1.5", Provider.google⟩ (.error "401 unauthorized")
    rfl rfl rfl rfl rfl

/-- C8: the controller performs at most one provider invocation per
dispatch, and exactly one — to the catalog provider of the selected
model, with that adapter's model identifier, credential and prompt —
whenever the inputs are non-blank and the model is in the catalog; there
is no fan-out and no fallback call. -/
theorem single_provider_invocation (code problem apiKey model : String) (env : ProviderEnv)
    (st : AppState) :
    (handleDebug code problem apiKey model env st).2.invocations.length ≤ 1 ∧
    (∀ m, isBlank code = false → isBlank problem = false → isBlank apiKey = false →
      AI_MODELS.find? (fun x => x.value == model) = some m →
      (handleDebug code problem apiKey model env st).2.invocations =
        [⟨m.provider, apiModelOf m.provider model, apiKey, promptOf m.provider code problem⟩]) := by
  constructor
  · by_cases hb : (isBlank code || isBlank problem || isBlank apiKey) = true
    · simp [handleDebug, hb]
    · rcases hfind : AI_MODELS.find? (fun x => x.value == model) with _ | m
      · simp [handleDebug, hb, hfind]
      · obtain ⟨mv, ml, mp⟩ := m
        cases mp <;>
          simp [handleDebug, hb, hfind, gemini_invocations, openai_invocations,
            claude_invocations, llama_invocations]
  · intro m h1 h2 h3 hfind
    obtain ⟨mv, ml, mp⟩ := m
    cases mp <;>
      simp [handleDebug, h1, h2, h3, hfind, gemini_invocations, openai_invocations,
        claude_invocations, llama_invocations, promptOf]

/-- C8 witness: a concrete dispatch of gemini-1.5 with non-blank inputs
makes exactly the one recorded Gemini invocation. -/
theorem single_provider_invocation_witness :
    (handleDebug "c" "p" "k" "gemini-1.5"
      ⟨.error .nonError, .error .nonError, .error .nonError, .error .nonError⟩
      ⟨none, "", false⟩).2.invocations =
      [⟨Provider.google, apiModelOf Provider.google "gemini-1.5", "k",
        promptOf Provider.google "c" "p"⟩] :=
  (single_provider_invocation "c" "p" "k" "gemini-1.5"
    ⟨.error .nonError, .error .nonError, .error .nonError, .error .nonError⟩
    ⟨none, "", false⟩).2 ⟨"gemini-1.5", "Gemini 1.5", Provider.google⟩ rfl rfl rfl rfl

/-- C10: when any of the three inputs is blank, the dispatch entry point
rejects the request with the fill-in-all-fields message before the
catalog lookup or any adapter invocation, and the previous state
(including any displayed result) is otherwise unchanged. -/
theorem blank_fields_rejected (code problem apiKey model : String) (env : ProviderEnv)
    (st : AppState)
    (h : isBlank code = true ∨ isBlank problem = true ∨ isBlank apiKey = true) :
    handleDebug code problem apiKey model env st =
      ({ st with error := "Please fill in all fields" }, ⟨[], 0, 0⟩) := by
  have hb : (isBlank code || isBlank problem || isBlank apiKey) = true := by
    rcases h with h | h | h <;> simp [h]
  simp [handleDebug, hb]

/-- C10 witness: a whitespace-only code field is rejected with the
fill-in-all-fields message while the previously displayed result stays. -/
theorem blank_fields_rejected_witness :
    handleDebug "   " "desc" "key" "gpt-4"
      ⟨.error .nonError, .error .nonError, .error .nonError, .error .nonError⟩
      ⟨some ⟨Json.str "p".data, Json.str "s".data, Json.str "c".data⟩, "", false⟩ =
      (⟨some ⟨Json.str "p".data, Json.str "s".data, Json.str "c".data⟩,
        "Please fill in all fields", false⟩, ⟨[], 0, 0⟩) :=
  blank_fields_rejected "   " "desc" "key" "gpt-4" _ _ (Or.inl rfl)

theorem expert_contract (code problem : String) :
    containsSeg code.data (expertPromptTemplate code problem).data ∧
    containsSeg problem.data (expertPromptTemplate code problem).data ∧
    containsSeg "\"problem\"".data (expertPromptTemplate code problem).data ∧
    containsSeg "\"solution\"".data (expertPromptTemplate code problem).data ∧
    containsSeg "\"codeSnippet\"".data (expertPromptTemplate code problem).data ∧
    containsSeg "ONLY with a JSON object".data (expertPromptTemplate code problem).data := by
  refine ⟨?_, ?_, ?_, ?_, ?_, ?_⟩ <;>
    simp only [expertPromptTemplate, String.data_append, List.append_assoc]
  · exact containsSeg_appended_left _ _ _ (containsSeg_appended_left _ _ _
      (containsSeg_appended_left _ _ _ (containsSeg_appended_right _ _ _ (containsSeg_refl _))))
  · exact containsSeg_appended_left _ _ _ (containsSeg_appended_left _ _ _
      (containsSeg_appended_left _ _ _ (containsSeg_appended_left _ _ _
        (containsSeg_appended_left _ _ _ (containsSeg_refl _)))))
  · exact containsSeg_appended_left _ _ _ (containsSeg_appended_right _ _ _
      (hasSegB_correct _ _ (by decide)))
  · exact containsSeg_appended_left _ _ _ (containsSeg_appended_right _ _ _
      (hasSegB_correct _ _ (by decide)))
  · exact containsSeg_appended_left _ _ _ (containsSeg_appended_right _ _ _
      (hasSegB_correct _ _ (by decide)))
  · exact containsSeg_appended_right _ _ _ (hasSegB_correct _ _ (by decide))

theorem openai_contract (code problem : String) :
    containsSeg code.data (openaiUserPrompt code problem).data ∧
    containsSeg problem.data (openaiUserPrompt code problem).data ∧
    containsSeg "\"problem\"".data (openaiUserPrompt code problem).data ∧
    containsSeg "\"solution\"".data (openaiUserPrompt code problem).data ∧
    containsSeg "\"codeSnippet\"".data (openaiUserPrompt code problem).data ∧
    containsSeg "ONLY with a JSON object".data (openaiUserPrompt code problem).data := by
  refine ⟨?_, ?_, ?_, ?_, ?_, ?_⟩ <;>
    simp only [openaiUserPrompt, String.data_append, List.append_assoc]
  · exact containsSeg_appended_left _ _ _ (containsSeg_appended_right _ _ _ (containsSeg_refl _))
  · exact containsSeg_appended_left _ _ _ (containsSeg_appended_left _ _ _
      (containsSeg_appended_left _ _ _ (containsSeg_appended_right _ _ _ (containsSeg_refl _))))
  · exact containsSeg_appended_left _ _ _ (containsSeg_appended_left _ _ _
      (containsSeg_appended_left _ _ _ (containsSeg_appended_left _ _ _
        (containsSeg_appended_left _ _ _ (hasSegB_correct _ _ (by decide))))))
  · exact containsSeg_appended_left _ _ _ (containsSeg_appended_left _ _ _
      (containsSeg_appended_left _ _ _ (containsSeg_appended_left _ _ _
        (containsSeg_appended_left _ _ _ (hasSegB_correct _ _ (by decide))))))
  · exact containsSeg_appended_left _ _ _ (containsSeg_appended_left _ _ _
      (containsSeg_appended_left _ _ _ (containsSeg_appended_left _ _ _
        (containsSeg_appended_left _ _ _ (hasSegB_correct _ _ (by decide))))))
  · exact containsSeg_appended_left _ _ _ (containsSeg_appended_left _ _ _
      (containsSeg_appended_left _ _ _ (containsSeg_appended_left _ _ _
        (containsSeg_appended_right _ _ _ (hasSegB_correct _ _ (by decide))))))

/-- C9: for every provider adapter and all code and problem texts, the
outbound prompt embeds the code and the problem verbatim as contiguous
segments, names all three required JSON fields problem, solution and
codeSnippet (quoted, in the displayed shape block), and instructs the
model to respond with ONLY a JSON object. -/
theorem prompts_embed_contract (p : Provider) (code problem : String) :
    containsSeg code.data (promptOf p code problem).data ∧
    containsSeg problem.data (promptOf p code problem).data ∧
    containsSeg "\"problem\"".data (promptOf p code problem).data ∧
    containsSeg "\"solution\"".data (promptOf p code problem).data ∧
    containsSeg "\"codeSnippet\"".data (promptOf p code problem).data ∧
    containsSeg "ONLY with a JSON object".data (promptOf p code problem).data := by
  cases p
  · exact expert_contract code problem
  · exact openai_contract code problem
  · exact expert_contract code problem
  · exact expert_contract code problem
